import Mathlib

/-!
Verification of the HllSet core of the `sgs_bnn` repository.

The authoritative implementation is the Python code in
`src/hllset_system.ipynb`: an HllSet is a Python dict mapping a bucket id
`b` to a bucket record that holds a list of trailing-zero counts `"zeros"`
and, for ingest-produced buckets, the metadata lists `"frequencies"` and
`"documents"`.  The functions `ingest_dataset`, `union`, `intersection`,
`complement`, `difference` and `jaccard_similarity` are embedded below.

Modelling choices:
* a dict is an association list `List (Nat × Bucket)`; lookup (`find?`)
  returns the first entry, matching Python dict semantics (whose keys are
  unique);
* a bucket record is a structure whose `frequencies`/`documents` fields are
  `Option (List Nat)`: `none` models the key being absent from the Python
  bucket dict (results of `union`/`intersection` carry only `"zeros"`);
* Python's `list(set(...))` has implementation-defined element order, so it
  is modelled by `List.dedup` and every theorem about such results is
  stated at the level of the underlying finite sets;
* `tokenize` and `hash_function` are external collaborators of the core and
  are taken as parameters (`hashF`), with documents given as token lists.
-/

namespace HllSets

/-- Bucket record of an HllSet: the `"zeros"` list plus the optional
`"frequencies"` and `"documents"` metadata lists (`none` = key absent). -/
structure Bucket where
  zeros : List Nat
  frequencies : Option (List Nat)
  documents : Option (List Nat)
deriving DecidableEq, Repr

/-- An HllSet: a Python dict from bucket ids to bucket records, modelled as
an association list. -/
abbrev HllSet := List (Nat × Bucket)

/-- Dict lookup: first entry with the given key. -/
def find? (b : Nat) : HllSet → Option Bucket
  | [] => none
  | (k, r) :: t => if k = b then some r else find? b t

/-- The key list of the dict. -/
def keys (h : HllSet) : List Nat := h.map Prod.fst

/-- The key set of the dict. -/
def keysF (h : HllSet) : Finset Nat := (keys h).toFinset

/-- The `"zeros"` list of bucket `b`, `[]` when the bucket is absent
(mirrors Python's `hllset.get(b, {"zeros": []})["zeros"]`). -/
def zerosList (h : HllSet) (b : Nat) : List Nat :=
  match find? b h with
  | none => []
  | some r => r.zeros

/-- The set of trailing-zero counts recorded in bucket `b`. -/
def zF (h : HllSet) (b : Nat) : Finset Nat := (zerosList h b).toFinset

/-- One iteration of the inner loop of `ingest_dataset` once `(b, z)` has
been computed: create the bucket if absent, then append `z`, `1` and the
document id to the three lists. -/
def addPair (b z d : Nat) : HllSet → HllSet
  | [] => [(b, ⟨[z], some [1], some [d]⟩)]
  | (k, r) :: t =>
      if k = b then
        (k, ⟨r.zeros ++ [z], r.frequencies.map (fun f => f ++ [1]),
             r.documents.map (fun ds => ds ++ [d])⟩) :: t
      else (k, r) :: addPair b z d t

/-- Fuel-bounded trailing-zero counter; with fuel 64 it matches
`count_trailing_zeros` on 64-bit hash values (and yields 64 on 0). -/
def trailingZerosAux : Nat → Nat → Nat
  | 0, _ => 0
  | fuel + 1, n => if n % 2 = 0 then trailingZerosAux fuel (n / 2) + 1 else 0

/-- Number of trailing zero bits of a 64-bit hash value. -/
def count_trailing_zeros (n : Nat) : Nat := trailingZerosAux 64 n

/-- Bucket index: `(hash_val >> (64 - p)) & ((1 << p) - 1)`, the first `p`
bits of the hash. -/
def bucketOf (hashVal p : Nat) : Nat := (hashVal >>> (64 - p)) &&& (2 ^ p - 1)

/-- Body of the token loop of `ingest_dataset` for one token hash. -/
def ingestStep (p docId hashVal : Nat) (h : HllSet) : HllSet :=
  addPair (bucketOf hashVal p) (count_trailing_zeros hashVal) docId h

/-- Python `ingest_dataset(documents, p)`: fold the token loop over the enumerated
documents.  The external tokenizer/hasher is abstracted into `hashF` and
documents are given as lists of tokens. -/
def ingest_dataset (hashF : Nat → Nat) (documents : List (List Nat)) (p : Nat) :
    HllSet :=
  documents.enum.foldl
    (fun h pair => pair.2.foldl (fun h' token => ingestStep p pair.1 (hashF token) h') h)
    []

/-- Result bucket of `union` at key `b`:
`{"zeros": list(set(zeros1 + zeros2))}`. -/
def unionBucket (A B : HllSet) (b : Nat) : Bucket :=
  ⟨(zerosList A b ++ zerosList B b).dedup, none, none⟩

/-- Python `union(hllset1, hllset2)`: iterate over the set of keys of both dicts
and take the set union of the zeros lists. -/
def union (A B : HllSet) : HllSet :=
  (keys A ++ keys B).dedup.map (fun b => (b, unionBucket A B b))

/-- Result bucket of `intersection` at key `b`: the common zeros
`list(set(zeros1).intersection(zeros2))`, kept only when non-empty. -/
def interBucket (A B : HllSet) (b : Nat) : Option Bucket :=
  if b ∈ keys B then
    if (zerosList A b).dedup.filter (fun z => z ∈ zerosList B b) = [] then none
    else some ⟨(zerosList A b).dedup.filter (fun z => z ∈ zerosList B b), none, none⟩
  else none

/-- Python `intersection(hllset1, hllset2)`: iterate over the common keys and keep
buckets with non-empty common zeros. -/
def intersection (A B : HllSet) : HllSet :=
  (keys A).dedup.filterMap (fun b => (interBucket A B b).map (fun r => (b, r)))

/-- Result bucket of `complement` at key `b`: the whole record of `A` when
`b` is not a key of `B`, otherwise the set difference of the zeros lists,
kept only when non-empty. -/
def compBucket (A B : HllSet) (b : Nat) : Option Bucket :=
  match find? b A with
  | none => none
  | some r =>
      if b ∈ keys B then
        if r.zeros.dedup.filter (fun z => z ∉ zerosList B b) = [] then none
        else some ⟨r.zeros.dedup.filter (fun z => z ∉ zerosList B b), none, none⟩
      else some r

/-- Python `complement(hllset1, hllset2)`: iterate over the keys of the first dict. -/
def complement (A B : HllSet) : HllSet :=
  (keys A).dedup.filterMap (fun b => (compBucket A B b).map (fun r => (b, r)))

/-- Python `difference(hllset1, hllset2)` is defined as `complement`. -/
def difference (A B : HllSet) : HllSet := complement A B

/-- Per-bucket statistic of the cardinality estimator: the position of the
highest set bit of the bucket's bitmap, i.e. the maximum recorded
trailing-zero run, with an empty or absent bucket contributing 0. -/
def bucketStat (h : HllSet) (b : Nat) : Nat := (zerosList h b).foldr max 0

/-- Number of buckets (out of `2^p`) with no recorded observation. -/
def emptyBuckets (p : Nat) (h : HllSet) : Nat :=
  ((List.range (2 ^ p)).filter (fun b => (zerosList h b).isEmpty)).length

/-- Modelled from the spec: the bias-correction constant `alpha_m` of the
HyperLogLog estimator; the repository's `src/` has no estimator code (the
Julia `count` lives in the absent `src/sets32.jl`), and the spec defers the
exact constants to the reference HyperLogLog algorithm, whose standard
values are used here. -/
noncomputable def alpha_m (m : Nat) : ℝ :=
  if m = 16 then 0.673
  else if m = 32 then 0.697
  else if m = 64 then 0.709
  else 0.7213 / (1 + 1.079 / (m : ℝ))

/-- Modelled from the spec: the uncorrected harmonic-mean estimate
`alpha_m * m^2 / sum_b 2^(-stat_b)` over all `m = 2^p` buckets. -/
noncomputable def rawEstimate (p : Nat) (h : HllSet) : ℝ :=
  let m := 2 ^ p
  alpha_m m * (m : ℝ) ^ 2 / ∑ b ∈ Finset.range m, ((2 : ℝ))⁻¹ ^ bucketStat h b

open Classical in
/-- Modelled from the spec: `count(hllset)`, the bias-corrected
harmonic-mean cardinality estimate with the standard small-range
(linear-counting) and 64-bit large-range corrections at the reference
thresholds. -/
noncomputable def specCount (p : Nat) (h : HllSet) : ℝ :=
  let m : Nat := 2 ^ p
  let E := rawEstimate p h
  let V := emptyBuckets p h
  if E ≤ 5 / 2 * (m : ℝ) ∧ 0 < V then (m : ℝ) * Real.log ((m : ℝ) / (V : ℝ))
  else if E ≤ 2 ^ 64 / 30 then E
  else -(2 : ℝ) ^ 64 * Real.log (1 - E / 2 ^ 64)

/-- Equality of sketches "comparing per-bucket contents as sets": same
bucket-id set, and at every bucket id the same set of trailing-zero counts
and the same metadata fields. -/
def setEquiv (h1 h2 : HllSet) : Prop :=
  keysF h1 = keysF h2 ∧
    ∀ b, zF h1 b = zF h2 b ∧
      (find? b h1).map Bucket.frequencies = (find? b h2).map Bucket.frequencies ∧
      (find? b h1).map Bucket.documents = (find? b h2).map Bucket.documents

/-- Python `jaccard_similarity(hllset1, hllset2)`:
`intersection_size / union_size if union_size > 0 else 0`, where the sizes
are the `len` of the result dicts. -/
def jaccard_similarity (A B : HllSet) : ℚ :=
  let i := (intersection A B).length
  let u := (union A B).length
  if 0 < u then (i : ℚ) / u else 0

/-- Concrete sketch with all 16 buckets of `p = 4` holding the zeros set
`{3}`; together with `c1B` it separates bucket counting from cardinality
estimation. -/
def c1A : HllSet := (List.range 16).map (fun b => (b, ⟨[3], none, none⟩))

/-- Concrete sketch with all 16 buckets of `p = 4` holding the zeros set
`{3, 4}`. -/
def c1B : HllSet := (List.range 16).map (fun b => (b, ⟨[3, 4], none, none⟩))

/-! ### Basic lookup lemmas -/

theorem keys_cons (k : Nat) (r : Bucket) (t : HllSet) :
    keys ((k, r) :: t) = k :: keys t := rfl

theorem mem_keys_iff_isSome (b : Nat) (h : HllSet) :
    b ∈ keys h ↔ (find? b h).isSome := by
  induction h with
  | nil => simp [keys, find?]
  | cons e t ih =>
      obtain ⟨k, r⟩ := e
      rw [keys_cons]
      by_cases hk : k = b
      · subst hk; simp [find?]
      · simp [find?, hk, Ne.symm hk, ih]

theorem find?_eq_none_iff (b : Nat) (h : HllSet) :
    find? b h = none ↔ b ∉ keys h := by
  rw [mem_keys_iff_isSome]
  cases find? b h <;> simp

theorem mem_keysF (b : Nat) (h : HllSet) : b ∈ keysF h ↔ b ∈ keys h :=
  List.mem_toFinset

theorem zerosList_of_not_mem (b : Nat) (h : HllSet) (hb : b ∉ keys h) :
    zerosList h b = [] := by
  unfold zerosList
  rw [(find?_eq_none_iff b h).mpr hb]

theorem find?_map_keyfn (l : List Nat) (f : Nat → Bucket) (b : Nat) :
    find? b (l.map (fun k => (k, f k))) = if b ∈ l then some (f b) else none := by
  induction l with
  | nil => simp [find?]
  | cons k t ih =>
      by_cases hk : k = b
      · subst hk; simp [find?]
      · simp [find?, hk, ih, Ne.symm hk]

theorem find?_filterMap_keyfn (l : List Nat) (g : Nat → Option Bucket) (b : Nat) :
    find? b (l.filterMap (fun k => (g k).map (fun r => (k, r)))) =
      if b ∈ l then g b else none := by
  induction l with
  | nil => simp [find?]
  | cons k t ih =>
      cases hg : g k with
      | none =>
          by_cases hk : k = b
          · subst hk
            simp only [List.filterMap_cons, hg, Option.map_none', ih]
            simp [hg]
          · simp [List.filterMap_cons, hg, ih, Ne.symm hk, hk]
      | some r =>
          by_cases hk : k = b
          · subst hk; simp [List.filterMap_cons, hg, find?]
          · simp [List.filterMap_cons, hg, find?, hk, Ne.symm hk, ih]

/-! ### Characterization of the three operations -/

theorem find?_union (A B : HllSet) (b : Nat) :
    find? b (union A B) =
      if b ∈ keys A ∨ b ∈ keys B then some (unionBucket A B b) else none := by
  unfold union
  rw [find?_map_keyfn]
  by_cases hb : b ∈ keys A ∨ b ∈ keys B
  · rw [if_pos hb, if_pos (by simpa [List.mem_dedup, List.mem_append] using hb)]
  · rw [if_neg hb, if_neg (by simpa [List.mem_dedup, List.mem_append] using hb)]

theorem find?_inter (A B : HllSet) (b : Nat) :
    find? b (intersection A B) = if b ∈ keys A then interBucket A B b else none := by
  unfold intersection
  rw [find?_filterMap_keyfn]
  by_cases hb : b ∈ keys A
  · rw [if_pos hb, if_pos (List.mem_dedup.mpr hb)]
  · rw [if_neg hb, if_neg (fun hc => hb (List.mem_dedup.mp hc))]

theorem find?_comp (A B : HllSet) (b : Nat) :
    find? b (complement A B) = if b ∈ keys A then compBucket A B b else none := by
  unfold complement
  rw [find?_filterMap_keyfn]
  by_cases hb : b ∈ keys A
  · rw [if_pos hb, if_pos (List.mem_dedup.mpr hb)]
  · rw [if_neg hb, if_neg (fun hc => hb (List.mem_dedup.mp hc))]

/-! ### Zeros-set characterization of the operations -/

theorem zerosList_eq_of_find? {b : Nat} {h : HllSet} {r : Bucket}
    (hf : find? b h = some r) : zerosList h b = r.zeros := by
  unfold zerosList; rw [hf]

theorem zerosList_eq_nil_of_find? {b : Nat} {h : HllSet}
    (hf : find? b h = none) : zerosList h b = [] := by
  unfold zerosList; rw [hf]

theorem zF_union (A B : HllSet) (b : Nat) :
    zF (union A B) b = zF A b ∪ zF B b := by
  ext z
  simp only [zF, List.mem_toFinset, Finset.mem_union]
  by_cases hb : b ∈ keys A ∨ b ∈ keys B
  · have hf : find? b (union A B) = some (unionBucket A B b) := by
      rw [find?_union, if_pos hb]
    rw [zerosList_eq_of_find? hf]
    simp [unionBucket, List.mem_dedup, List.mem_append]
  · have hf : find? b (union A B) = none := by rw [find?_union, if_neg hb]
    push_neg at hb
    rw [zerosList_eq_nil_of_find? hf, zerosList_of_not_mem _ _ hb.1,
      zerosList_of_not_mem _ _ hb.2]
    simp

theorem zF_inter (A B : HllSet) (b : Nat) :
    zF (intersection A B) b = zF A b ∩ zF B b := by
  ext z
  simp only [zF, List.mem_toFinset, Finset.mem_inter]
  by_cases hbA : b ∈ keys A
  · have hf : find? b (intersection A B) = interBucket A B b := by
      rw [find?_inter, if_pos hbA]
    unfold interBucket at hf
    by_cases hbB : b ∈ keys B
    · rw [if_pos hbB] at hf
      by_cases hc : (zerosList A b).dedup.filter (fun z => z ∈ zerosList B b) = []
      · rw [if_pos hc] at hf
        rw [zerosList_eq_nil_of_find? hf]
        simp only [List.not_mem_nil, false_iff, not_and]
        intro hzA hzB
        have hz : z ∈ (zerosList A b).dedup.filter (fun z => z ∈ zerosList B b) := by
          simp [List.mem_filter, List.mem_dedup, hzA, hzB]
        rw [hc] at hz
        simp at hz
      · rw [if_neg hc] at hf
        rw [zerosList_eq_of_find? hf]
        simp [List.mem_filter, List.mem_dedup]
    · rw [if_neg hbB] at hf
      rw [zerosList_eq_nil_of_find? hf, zerosList_of_not_mem _ _ hbB]
      simp
  · have hf : find? b (intersection A B) = none := by rw [find?_inter, if_neg hbA]
    rw [zerosList_eq_nil_of_find? hf, zerosList_of_not_mem _ _ hbA]
    simp

theorem compBucket_some {A B : HllSet} {b : Nat} {r : Bucket}
    (hfa : find? b A = some r) :
    compBucket A B b =
      if b ∈ keys B then
        if r.zeros.dedup.filter (fun z => z ∉ zerosList B b) = [] then none
        else some ⟨r.zeros.dedup.filter (fun z => z ∉ zerosList B b), none, none⟩
      else some r := by
  unfold compBucket
  rw [hfa]

theorem zF_comp (A B : HllSet) (b : Nat) :
    zF (complement A B) b = zF A b \ zF B b := by
  ext z
  simp only [zF, List.mem_toFinset, Finset.mem_sdiff]
  by_cases hbA : b ∈ keys A
  · have hf0 : find? b (complement A B) = compBucket A B b := by
      rw [find?_comp, if_pos hbA]
    cases hfa : find? b A with
    | none =>
        exact absurd ((mem_keys_iff_isSome b A).mp hbA) (by rw [hfa]; simp)
    | some r =>
        have hzl : zerosList A b = r.zeros := zerosList_eq_of_find? hfa
        rw [compBucket_some hfa] at hf0
        by_cases hbB : b ∈ keys B
        · rw [if_pos hbB] at hf0
          by_cases hu : r.zeros.dedup.filter (fun z => z ∉ zerosList B b) = []
          · rw [if_pos hu] at hf0
            rw [zerosList_eq_nil_of_find? hf0]
            simp only [List.not_mem_nil, false_iff, not_and, not_not]
            intro hzA
            by_contra hzB
            have hz : z ∈ r.zeros.dedup.filter (fun z => z ∉ zerosList B b) := by
              rw [hzl] at hzA
              simp [List.mem_filter, List.mem_dedup, hzA, hzB]
            rw [hu] at hz
            simp at hz
          · rw [if_neg hu] at hf0
            rw [zerosList_eq_of_find? hf0, hzl]
            simp [List.mem_filter, List.mem_dedup]
        · rw [if_neg hbB] at hf0
          rw [zerosList_eq_of_find? hf0, hzl, zerosList_of_not_mem _ _ hbB]
          simp
  · have hf : find? b (complement A B) = none := by rw [find?_comp, if_neg hbA]
    rw [zerosList_eq_nil_of_find? hf, zerosList_of_not_mem _ _ hbA]
    simp

/-! ### Key-set characterization of the operations -/

theorem keys_union (A B : HllSet) : keys (union A B) = (keys A ++ keys B).dedup := by
  unfold union keys
  rw [List.map_map]
  have hid : (Prod.fst ∘ fun b => (b, unionBucket A B b)) = id := rfl
  rw [hid, List.map_id]

theorem keysF_union (A B : HllSet) : keysF (union A B) = keysF A ∪ keysF B := by
  unfold keysF
  rw [keys_union]
  ext b
  simp [List.mem_dedup, List.mem_append]

theorem interBucket_isSome_iff (A B : HllSet) (b : Nat) :
    (interBucket A B b).isSome ↔ zF A b ∩ zF B b ≠ ∅ := by
  unfold interBucket
  by_cases hbB : b ∈ keys B
  · rw [if_pos hbB]
    by_cases hc : (zerosList A b).dedup.filter (fun z => z ∈ zerosList B b) = []
    · rw [if_pos hc]
      simp only [Option.isSome_none, Bool.false_eq_true, false_iff, ne_eq, not_not]
      ext z
      simp only [Finset.mem_inter, Finset.not_mem_empty, iff_false, not_and, zF,
        List.mem_toFinset]
      intro hzA hzB
      have hz : z ∈ (zerosList A b).dedup.filter (fun z => z ∈ zerosList B b) := by
        simp [List.mem_filter, List.mem_dedup, hzA, hzB]
      rw [hc] at hz
      simp at hz
    · rw [if_neg hc]
      simp only [Option.isSome_some, true_iff, ne_eq]
      intro hE
      obtain ⟨z, hz⟩ := List.exists_mem_of_ne_nil _ hc
      have : z ∈ zF A b ∩ zF B b := by
        simp only [List.mem_filter, List.mem_dedup, decide_eq_true_eq] at hz
        simp [zF, Finset.mem_inter, List.mem_toFinset, hz.1, hz.2]
      rw [hE] at this
      simp at this
  · rw [if_neg hbB]
    simp only [Option.isSome_none, Bool.false_eq_true, false_iff, ne_eq, not_not]
    rw [show zF B b = ∅ by simp [zF, zerosList_of_not_mem _ _ hbB]]
    simp

theorem mem_keysF_inter (A B : HllSet) (b : Nat) :
    b ∈ keysF (intersection A B) ↔ zF A b ∩ zF B b ≠ ∅ := by
  rw [mem_keysF, mem_keys_iff_isSome, find?_inter]
  by_cases hbA : b ∈ keys A
  · rw [if_pos hbA, interBucket_isSome_iff]
  · rw [if_neg hbA]
    simp only [Option.isSome_none, Bool.false_eq_true, false_iff, ne_eq, not_not]
    rw [show zF A b = ∅ by simp [zF, zerosList_of_not_mem _ _ hbA]]
    simp

/-! ### Metadata lemmas -/

theorem exists_find?_of_mem_keys {b : Nat} {h : HllSet} (hb : b ∈ keys h) :
    ∃ r, find? b h = some r := by
  have hs := (mem_keys_iff_isSome b h).mp hb
  cases hfx : find? b h with
  | none => rw [hfx] at hs; simp at hs
  | some r => exact ⟨r, rfl⟩

theorem union_bucket_zerosOnly {A B : HllSet} {b : Nat} {r : Bucket}
    (hf : find? b (union A B) = some r) :
    r.frequencies = none ∧ r.documents = none := by
  rw [find?_union] at hf
  by_cases hb : b ∈ keys A ∨ b ∈ keys B
  · rw [if_pos hb] at hf
    cases hf
    exact ⟨rfl, rfl⟩
  · rw [if_neg hb] at hf
    cases hf

theorem inter_bucket_zerosOnly {A B : HllSet} {b : Nat} {r : Bucket}
    (hf : find? b (intersection A B) = some r) :
    r.frequencies = none ∧ r.documents = none := by
  rw [find?_inter] at hf
  by_cases hbA : b ∈ keys A
  · rw [if_pos hbA] at hf
    unfold interBucket at hf
    by_cases hbB : b ∈ keys B
    · rw [if_pos hbB] at hf
      by_cases hc : (zerosList A b).dedup.filter (fun z => z ∈ zerosList B b) = []
      · rw [if_pos hc] at hf; cases hf
      · rw [if_neg hc] at hf
        cases hf
        exact ⟨rfl, rfl⟩
    · rw [if_neg hbB] at hf; cases hf
  · rw [if_neg hbA] at hf; cases hf

theorem meta_eq_of_zerosOnly {h1 h2 : HllSet}
    (hk : keysF h1 = keysF h2)
    (z1 : ∀ b r, find? b h1 = some r → r.frequencies = none ∧ r.documents = none)
    (z2 : ∀ b r, find? b h2 = some r → r.frequencies = none ∧ r.documents = none)
    (b : Nat) :
    (find? b h1).map Bucket.frequencies = (find? b h2).map Bucket.frequencies ∧
      (find? b h1).map Bucket.documents = (find? b h2).map Bucket.documents := by
  cases hf1 : find? b h1 with
  | none =>
      have hb1 : b ∉ keys h1 := (find?_eq_none_iff b h1).mp hf1
      have hb2 : b ∉ keys h2 := by
        rw [← mem_keysF, ← hk, mem_keysF]
        exact hb1
      rw [(find?_eq_none_iff b h2).mpr hb2]
      simp
  | some r =>
      have hb1 : b ∈ keys h1 := by rw [mem_keys_iff_isSome, hf1]; simp
      have hb2 : b ∈ keys h2 := by
        rw [← mem_keysF, ← hk, mem_keysF]
        exact hb1
      obtain ⟨r2, hf2⟩ := exists_find?_of_mem_keys hb2
      rw [hf2]
      obtain ⟨e1, e2⟩ := z1 b r hf1
      obtain ⟨e3, e4⟩ := z2 b r2 hf2
      simp [e1, e2, e3, e4]

theorem setEquiv_of_zerosOnly {h1 h2 : HllSet}
    (hk : keysF h1 = keysF h2) (hz : ∀ b, zF h1 b = zF h2 b)
    (z1 : ∀ b r, find? b h1 = some r → r.frequencies = none ∧ r.documents = none)
    (z2 : ∀ b r, find? b h2 = some r → r.frequencies = none ∧ r.documents = none) :
    setEquiv h1 h2 :=
  ⟨hk, fun b => ⟨hz b, meta_eq_of_zerosOnly hk z1 z2 b⟩⟩

theorem mem_keys_of_zF_ne {h : HllSet} {b : Nat} (hz : zF h b ≠ ∅) :
    b ∈ keys h := by
  by_contra hb
  exact hz (by simp [zF, zerosList_of_not_mem _ _ hb])

/-! ### Claim theorems -/

/-- C6: for all sketches `A, B, C`, `union` and `intersection` are
commutative and associative when results are compared per-bucket as sets
(same bucket-id set, same per-bucket zeros sets and metadata). -/
theorem c6_union_inter_comm_assoc (A B C : HllSet) :
    setEquiv (union A B) (union B A) ∧
      setEquiv (intersection A B) (intersection B A) ∧
      setEquiv (union (union A B) C) (union A (union B C)) ∧
      setEquiv (intersection (intersection A B) C)
        (intersection A (intersection B C)) := by
  refine ⟨?_, ?_, ?_, ?_⟩
  · exact setEquiv_of_zerosOnly
      (by rw [keysF_union, keysF_union, Finset.union_comm])
      (fun b => by rw [zF_union, zF_union, Finset.union_comm])
      (fun b r hf => union_bucket_zerosOnly hf)
      (fun b r hf => union_bucket_zerosOnly hf)
  · exact setEquiv_of_zerosOnly
      (by ext b; rw [mem_keysF_inter, mem_keysF_inter, Finset.inter_comm])
      (fun b => by rw [zF_inter, zF_inter, Finset.inter_comm])
      (fun b r hf => inter_bucket_zerosOnly hf)
      (fun b r hf => inter_bucket_zerosOnly hf)
  · exact setEquiv_of_zerosOnly
      (by rw [keysF_union, keysF_union, keysF_union, keysF_union,
        Finset.union_assoc])
      (fun b => by rw [zF_union, zF_union, zF_union, zF_union, Finset.union_assoc])
      (fun b r hf => union_bucket_zerosOnly hf)
      (fun b r hf => union_bucket_zerosOnly hf)
  · exact setEquiv_of_zerosOnly
      (by
        ext b
        rw [mem_keysF_inter, mem_keysF_inter, zF_inter, zF_inter,
          Finset.inter_assoc])
      (fun b => by rw [zF_inter, zF_inter, zF_inter, zF_inter, Finset.inter_assoc])
      (fun b r hf => inter_bucket_zerosOnly hf)
      (fun b r hf => inter_bucket_zerosOnly hf)

/-- C7: `jaccard_similarity` of two empty sketches is exactly `0`: the
zero-denominator case is handled by the `union_size > 0` guard, which
returns the number `0` rather than dividing. -/
theorem c7_jaccard_empty_empty : jaccard_similarity [] [] = 0 := by decide

/-- C9: buckets of `union` and `intersection` results carry only the
`"zeros"` component (the frequency/document metadata recorded at ingestion
is not propagated), whereas `complement` passes whole bucket records
through for buckets absent from `B`. -/
theorem c9_metadata_not_propagated (A B : HllSet) (b : Nat) (r : Bucket) :
    (find? b (union A B) = some r ∨ find? b (intersection A B) = some r →
      r.frequencies = none ∧ r.documents = none) ∧
      (b ∈ keys A → b ∉ keys B → find? b (complement A B) = find? b A) := by
  constructor
  · rintro (hf | hf)
    · exact union_bucket_zerosOnly hf
    · exact inter_bucket_zerosOnly hf
  · intro hbA hbB
    obtain ⟨r', hfa⟩ := exists_find?_of_mem_keys hbA
    rw [find?_comp, if_pos hbA, compBucket_some hfa, if_neg hbB, hfa]

/-- Witness for C9 at a concrete ingest-shaped sketch. -/
theorem c9_witness :
    ((Bucket.mk [0] none none).frequencies = none ∧
        (Bucket.mk [0] none none).documents = none) ∧
      find? 0 (complement [(0, Bucket.mk [0] (some [1]) (some [0]))] []) =
        find? 0 [(0, Bucket.mk [0] (some [1]) (some [0]))] :=
  ⟨(c9_metadata_not_propagated [(0, Bucket.mk [0] (some [1]) (some [0]))] [] 0
      (Bucket.mk [0] none none)).1 (Or.inl (by decide)),
    (c9_metadata_not_propagated [(0, Bucket.mk [0] (some [1]) (some [0]))] [] 0
      (Bucket.mk [0] none none)).2 (by decide) (by decide)⟩

/-- C10: the algebra operations never invent buckets: every bucket id of
`union(A,B)` is a bucket id of `A` or `B`, every bucket id of
`intersection(A,B)` is a bucket id of both, and every bucket id of
`complement(A,B)` is a bucket id of `A`. -/
theorem c10_no_invented_buckets (A B : HllSet) (b : Nat) :
    (b ∈ keysF (union A B) → b ∈ keysF A ∨ b ∈ keysF B) ∧
      (b ∈ keysF (intersection A B) → b ∈ keysF A ∧ b ∈ keysF B) ∧
      (b ∈ keysF (complement A B) → b ∈ keysF A) := by
  refine ⟨?_, ?_, ?_⟩
  · rw [keysF_union]
    exact Finset.mem_union.mp
  · intro hb
    rw [mem_keysF_inter] at hb
    have h1 : zF A b ≠ ∅ := fun hE => hb (by rw [hE, Finset.empty_inter])
    have h2 : zF B b ≠ ∅ := fun hE => hb (by rw [hE, Finset.inter_empty])
    exact ⟨(mem_keysF b A).mpr (mem_keys_of_zF_ne h1),
      (mem_keysF b B).mpr (mem_keys_of_zF_ne h2)⟩
  · intro hb
    rw [mem_keysF, mem_keys_iff_isSome, find?_comp] at hb
    by_cases hbA : b ∈ keys A
    · exact (mem_keysF b A).mpr hbA
    · rw [if_neg hbA] at hb
      simp at hb

/-- Witness for C10 at concrete sketches where all three operations keep
bucket 0. -/
theorem c10_witness :
    (0 ∈ keysF [(0, Bucket.mk [0, 1] none none)] ∨
        0 ∈ keysF [(0, Bucket.mk [1] none none)]) ∧
      (0 ∈ keysF [(0, Bucket.mk [0, 1] none none)] ∧
        0 ∈ keysF [(0, Bucket.mk [1] none none)]) ∧
      0 ∈ keysF [(0, Bucket.mk [0, 1] none none)] :=
  ⟨(c10_no_invented_buckets [(0, Bucket.mk [0, 1] none none)]
      [(0, Bucket.mk [1] none none)] 0).1 (by decide),
    (c10_no_invented_buckets [(0, Bucket.mk [0, 1] none none)]
      [(0, Bucket.mk [1] none none)] 0).2.1 (by decide),
    (c10_no_invented_buckets [(0, Bucket.mk [0, 1] none none)]
      [(0, Bucket.mk [1] none none)] 0).2.2 (by decide)⟩

/-- C8: for every 64-bit hash value and every precision `p ≤ 64`, the
bucket index `(hash_val >> (64 - p)) & ((1 << p) - 1)` computed during
ingestion is the top `p` bits of the hash and lies in `[0, 2^p)`. -/
theorem c8_bucket_is_top_p_bits (hashVal p : Nat) (h64 : hashVal < 2 ^ 64)
    (hp : p ≤ 64) :
    bucketOf hashVal p = hashVal / 2 ^ (64 - p) ∧ bucketOf hashVal p < 2 ^ p := by
  have hlt : hashVal / 2 ^ (64 - p) < 2 ^ p := by
    apply Nat.div_lt_of_lt_mul
    calc hashVal < 2 ^ 64 := h64
      _ = 2 ^ (64 - p) * 2 ^ p := by rw [← pow_add, Nat.sub_add_cancel hp]
  have heq : bucketOf hashVal p = hashVal / 2 ^ (64 - p) := by
    unfold bucketOf
    rw [Nat.shiftRight_eq_div_pow, Nat.and_pow_two_sub_one_eq_mod,
      Nat.mod_eq_of_lt hlt]
  exact ⟨heq, heq ▸ hlt⟩

/-- Witness for C8 at the all-ones 64-bit hash and `p = 4`. -/
theorem c8_witness :
    2 ^ 64 - 1 < 2 ^ 64 ∧ (4 : Nat) ≤ 64 ∧
      bucketOf (2 ^ 64 - 1) 4 = (2 ^ 64 - 1) / 2 ^ 60 ∧
      bucketOf (2 ^ 64 - 1) 4 < 2 ^ 4 :=
  ⟨by norm_num, by norm_num,
    c8_bucket_is_top_p_bits (2 ^ 64 - 1) 4 (by norm_num) (by norm_num)⟩

/-! ### Ingestion lemmas for C2 -/

theorem find?_cons_ne {k b' : Nat} (r : Bucket) (t : HllSet) (hne : k ≠ b') :
    find? b' ((k, r) :: t) = find? b' t := by
  simp [find?, hne]

theorem zF_cons_ne {k b' : Nat} (r : Bucket) (t : HllSet) (hne : k ≠ b') :
    zF ((k, r) :: t) b' = zF t b' := by
  unfold zF zerosList
  rw [find?_cons_ne r t hne]

theorem zF_addPair (b z d b' : Nat) (h : HllSet) :
    zF (addPair b z d h) b' =
      if b' = b then insert z (zF h b') else zF h b' := by
  induction h with
  | nil =>
      by_cases hb : b' = b
      · subst hb
        ext y
        simp [addPair, zF, zerosList, find?]
      · ext y
        simp [addPair, zF, zerosList, find?, hb, Ne.symm hb]
  | cons e t ih =>
      obtain ⟨k, r⟩ := e
      by_cases hk : k = b
      · subst hk
        have hstep : addPair k z d ((k, r) :: t) =
            (k, ⟨r.zeros ++ [z], r.frequencies.map (fun f => f ++ [1]),
              r.documents.map (fun ds => ds ++ [d])⟩) :: t := by
          simp [addPair]
        rw [hstep]
        by_cases hb : b' = k
        · subst hb
          ext y
          simp [zF, zerosList, find?, or_comm]
        · rw [zF_cons_ne _ _ (fun he => hb he.symm),
            if_neg hb, zF_cons_ne _ _ (fun he => hb he.symm)]
      · have hstep : addPair b z d ((k, r) :: t) = (k, r) :: addPair b z d t := by
          simp [addPair, hk]
        rw [hstep]
        by_cases hb : b' = k
        · subst hb
          have hbb : ¬b' = b := hk
          rw [if_neg hbb]
          unfold zF zerosList
          simp [find?]
        · rw [zF_cons_ne _ _ (fun he => hb he.symm), ih,
            zF_cons_ne _ _ (fun he => hb he.symm)]

/-- C2 counterexample: ingesting the same item (token hash 5, i.e. the
already-recorded pair `(b, z) = (0, 0)`) a second time changes the bucket
contents — the Python code appends to the `zeros`, `frequencies` and
`documents` lists instead of setting an idempotent bit. -/
theorem c2_counterexample :
    ingest_dataset id [[5, 5]] 4 ≠ ingest_dataset id [[5]] 4 := by decide

/-- C2 amended: re-ingesting the same item is a no-op at the level of the
recorded sets of `(bucket, trailing-zero-run)` pairs — every bucket's zeros
set is unchanged by the second occurrence — even though the bucket's lists
grow. -/
theorem c2_amended_set_level_idempotent (h : HllSet) (p d d' hv b' : Nat) :
    zF (ingestStep p d' hv (ingestStep p d hv h)) b' =
      zF (ingestStep p d hv h) b' := by
  simp only [ingestStep, zF_addPair]
  by_cases hb : b' = bucketOf hv p
  · simp [hb]
  · simp [hb]

/-- C3 counterexample: `union` applied to two sketches ingested with
different precisions (`p = 4` and `p = 5`, hence incompatible hash
configurations) returns an ordinary merged sketch; no compatibility check
is performed and no `IncompatibleSketch` error exists in the code. -/
theorem c3_counterexample :
    union (ingest_dataset id [[2 ^ 60]] 4) (ingest_dataset id [[2 ^ 60]] 5) =
      [(1, Bucket.mk [60] none none), (2, Bucket.mk [60] none none)] := by
  decide

/-- C3 amended: the set-algebra operations perform no compatibility check
and never fail: for sketches ingested with arbitrary (possibly different)
precisions, `union`, `intersection` and `complement` return their ordinary
bucket-wise results. -/
theorem c3_amended_no_compatibility_check (hashF : Nat → Nat)
    (d1 d2 : List (List Nat)) (p1 p2 : Nat) :
    keysF (union (ingest_dataset hashF d1 p1) (ingest_dataset hashF d2 p2)) =
        keysF (ingest_dataset hashF d1 p1) ∪ keysF (ingest_dataset hashF d2 p2) ∧
      (∀ b,
        zF (union (ingest_dataset hashF d1 p1) (ingest_dataset hashF d2 p2)) b =
          zF (ingest_dataset hashF d1 p1) b ∪ zF (ingest_dataset hashF d2 p2) b) ∧
      (∀ b,
        zF (intersection (ingest_dataset hashF d1 p1)
            (ingest_dataset hashF d2 p2)) b =
          zF (ingest_dataset hashF d1 p1) b ∩ zF (ingest_dataset hashF d2 p2) b) ∧
      (∀ b,
        zF (complement (ingest_dataset hashF d1 p1)
            (ingest_dataset hashF d2 p2)) b =
          zF (ingest_dataset hashF d1 p1) b \ zF (ingest_dataset hashF d2 p2) b) :=
  ⟨keysF_union _ _, fun b => zF_union _ _ b, fun b => zF_inter _ _ b,
    fun b => zF_comp _ _ b⟩

/-- C4 counterexample: `union` with the empty sketch does not return a copy
of the other operand — the ingest-recorded `frequencies`/`documents`
metadata is dropped, so the result differs from `A`. -/
theorem c4_counterexample :
    union (ingest_dataset id [[1]] 4) [] ≠ ingest_dataset id [[1]] 4 := by
  decide

/-- C4 amended: `union(A, empty)` preserves `A`'s bucket ids and per-bucket
zeros sets, but each result bucket holds only the (deduplicated) `"zeros"`
component; metadata is not copied, so the result is not a full copy of `A`. -/
theorem c4_amended_union_empty (A : HllSet) :
    keysF (union A []) = keysF A ∧ (∀ b, zF (union A []) b = zF A b) ∧
      ∀ b r, find? b (union A []) = some r →
        r.frequencies = none ∧ r.documents = none := by
  refine ⟨?_, ?_, ?_⟩
  · rw [keysF_union]
    simp [keysF, keys]
  · intro b
    rw [zF_union]
    simp [zF, zerosList, find?]
  · intro b r hf
    exact union_bucket_zerosOnly hf

/-- Witness for C4 at a concrete ingest-produced sketch. -/
theorem c4_witness :
    keysF (union [(0, Bucket.mk [0] (some [1]) (some [0]))] []) =
        keysF [(0, Bucket.mk [0] (some [1]) (some [0]))] ∧
      (Bucket.mk [0] none none).frequencies = none ∧
      (Bucket.mk [0] none none).documents = none :=
  ⟨(c4_amended_union_empty [(0, Bucket.mk [0] (some [1]) (some [0]))]).1,
    (c4_amended_union_empty [(0, Bucket.mk [0] (some [1]) (some [0]))]).2.2 0
      (Bucket.mk [0] none none) (by decide)⟩

/-! ### Complement lemmas for C5 -/

theorem filterMap_keys_self (A : HllSet) (hnd : (keys A).Nodup)
    (g : Nat → Option Bucket) (hg : ∀ b r, find? b A = some r → g b = some r) :
    (keys A).filterMap (fun b => (g b).map (fun r => (b, r))) = A := by
  induction A with
  | nil => simp [keys]
  | cons e t ih =>
      obtain ⟨k, r⟩ := e
      rw [keys_cons] at hnd ⊢
      have hk : k ∉ keys t := (List.nodup_cons.mp hnd).1
      have hndt : (keys t).Nodup := (List.nodup_cons.mp hnd).2
      have hgk : g k = some r := hg k r (by simp [find?])
      simp only [List.filterMap_cons, hgk, Option.map_some']
      congr 1
      apply ih hndt
      intro b rb hfb
      have hbt : b ∈ keys t :=
        (mem_keys_iff_isSome b t).mpr (by rw [hfb]; simp)
      have hbk : k ≠ b := fun he => hk (he ▸ hbt)
      exact hg b rb (by simp [find?, hbk, hfb])

/-- C5 counterexample: `A` (containing pair `(0, 0)` with ingest metadata)
and `B` (containing pair `(0, 1)`) are disjoint in `(b, z)` content — their
`intersection` is empty — yet `complement(A, B)` is not equal to `A`: the
shared bucket id 0 is rebuilt as a zeros-only record, dropping `A`'s
metadata. -/
theorem c5_counterexample :
    intersection (ingest_dataset id [[1]] 4) (ingest_dataset id [[2]] 4) = [] ∧
      complement (ingest_dataset id [[1]] 4) (ingest_dataset id [[2]] 4) ≠
        ingest_dataset id [[1]] 4 := by
  decide

/-- C5 amended: `complement(A, B)` returns `A` itself when no bucket id of
`A` occurs in `B` (so in particular for sketches that are disjoint at the
bucket level), and `complement(A, A)` returns the empty sketch; when `A`
and `B` are disjoint only at the `(b, z)` level but share a bucket id, the
shared bucket keeps its zeros but is reduced to a zeros-only record. -/
theorem c5_amended_complement (A B : HllSet) (hnd : (keys A).Nodup)
    (hdisj : ∀ b ∈ keys A, b ∉ keys B) :
    complement A B = A ∧ complement A A = [] := by
  constructor
  · unfold complement
    rw [List.dedup_eq_self.mpr hnd]
    apply filterMap_keys_self A hnd
    intro b r hfb
    have hbA : b ∈ keys A :=
      (mem_keys_iff_isSome b A).mpr (by rw [hfb]; simp)
    rw [compBucket_some hfb, if_neg (hdisj b hbA)]
  · unfold complement
    rw [List.filterMap_eq_nil_iff]
    intro b hb
    have hbA : b ∈ keys A := List.mem_dedup.mp hb
    obtain ⟨r, hfb⟩ := exists_find?_of_mem_keys hbA
    have hz : zerosList A b = r.zeros := zerosList_eq_of_find? hfb
    have hfilter : r.zeros.dedup.filter (fun z => z ∉ zerosList A b) = [] := by
      rw [hz, List.filter_eq_nil_iff]
      intro z hzm
      simp [List.mem_dedup.mp hzm]
    rw [compBucket_some hfb, if_pos hbA, if_pos hfilter]
    rfl

/-- Witness for C5 at concrete sketches with no shared bucket id. -/
theorem c5_witness :
    complement [(0, Bucket.mk [0] (some [1]) (some [0]))]
        [(1, Bucket.mk [0] none none)] =
        [(0, Bucket.mk [0] (some [1]) (some [0]))] ∧
      complement [(0, Bucket.mk [0] (some [1]) (some [0]))]
          [(0, Bucket.mk [0] (some [1]) (some [0]))] = [] :=
  c5_amended_complement [(0, Bucket.mk [0] (some [1]) (some [0]))]
    [(1, Bucket.mk [0] none none)] (by decide) (by decide)

/-! ### Jaccard lemmas for C1 -/

theorem keys_filterMap_keyfn (l : List Nat) (g : Nat → Option Bucket) :
    keys (l.filterMap (fun b => (g b).map (fun r => (b, r)))) =
      l.filter (fun b => (g b).isSome) := by
  induction l with
  | nil => simp [keys]
  | cons k t ih =>
      cases hg : g k with
      | none => simp [List.filterMap_cons, hg, ih, List.filter_cons]
      | some r =>
          rw [List.filterMap_cons]
          simp only [hg, Option.map_some', List.filter_cons, Option.isSome_some,
            if_pos]
          rw [keys_cons, ih]

theorem length_eq_card_keysF {h : HllSet} (hnd : (keys h).Nodup) :
    h.length = (keysF h).card := by
  have h1 : h.length = (keys h).length := (List.length_map _ _).symm
  rw [h1, keysF, List.toFinset_card_of_nodup hnd]

theorem keys_union_nodup (A B : HllSet) : (keys (union A B)).Nodup := by
  rw [keys_union]
  exact List.nodup_dedup _

theorem keys_inter_nodup (A B : HllSet) : (keys (intersection A B)).Nodup := by
  unfold intersection
  rw [keys_filterMap_keyfn]
  exact (List.nodup_dedup (keys A)).filter _

/-- C1 amended: `jaccard_similarity(A, B)` is the ratio of the numbers of
buckets present in the `intersection` and `union` result dicts (Python's
`len`), with `0` when the union has no buckets — not the ratio of the
estimated cardinalities of the two sketches. -/
theorem c1_amended_jaccard_is_bucket_ratio (A B : HllSet) :
    jaccard_similarity A B =
      if (keysF (union A B)).card = 0 then 0
      else ((keysF (intersection A B)).card : ℚ) / (keysF (union A B)).card := by
  simp only [jaccard_similarity]
  rw [length_eq_card_keysF (keys_union_nodup A B),
    length_eq_card_keysF (keys_inter_nodup A B)]
  by_cases hc : (keysF (union A B)).card = 0
  · rw [if_neg (by rw [hc]; exact lt_irrefl 0), if_pos hc]
  · rw [if_pos (Nat.pos_of_ne_zero hc), if_neg hc]

theorem c1_inter_stat : ∀ b < 16, bucketStat (intersection c1A c1B) b = 3 := by
  decide

theorem c1_union_stat : ∀ b < 16, bucketStat (union c1A c1B) b = 4 := by
  decide

theorem c1_inter_emptyBuckets : emptyBuckets 4 (intersection c1A c1B) = 0 := by
  decide

theorem c1_union_emptyBuckets : emptyBuckets 4 (union c1A c1B) = 0 := by
  decide

theorem rawEstimate_c1_inter :
    rawEstimate 4 (intersection c1A c1B) = 0.673 * 256 / 2 := by
  simp only [rawEstimate]
  have h16 : (2 : Nat) ^ 4 = 16 := by norm_num
  rw [h16]
  have hsum : ∑ b ∈ Finset.range 16,
      ((2 : ℝ))⁻¹ ^ bucketStat (intersection c1A c1B) b = 2 := by
    rw [Finset.sum_congr rfl
      (fun b hb => by rw [c1_inter_stat b (Finset.mem_range.mp hb)])]
    rw [Finset.sum_const, Finset.card_range]
    norm_num
  rw [hsum, show alpha_m 16 = 0.673 by norm_num [alpha_m]]
  norm_num

theorem rawEstimate_c1_union :
    rawEstimate 4 (union c1A c1B) = 0.673 * 256 := by
  simp only [rawEstimate]
  have h16 : (2 : Nat) ^ 4 = 16 := by norm_num
  rw [h16]
  have hsum : ∑ b ∈ Finset.range 16,
      ((2 : ℝ))⁻¹ ^ bucketStat (union c1A c1B) b = 1 := by
    rw [Finset.sum_congr rfl
      (fun b hb => by rw [c1_union_stat b (Finset.mem_range.mp hb)])]
    rw [Finset.sum_const, Finset.card_range]
    norm_num
  rw [hsum, show alpha_m 16 = 0.673 by norm_num [alpha_m]]
  norm_num

theorem specCount_c1_inter :
    specCount 4 (intersection c1A c1B) = 0.673 * 256 / 2 := by
  simp only [specCount]
  rw [rawEstimate_c1_inter, c1_inter_emptyBuckets]
  rw [if_neg (by norm_num), if_pos (by norm_num)]

theorem specCount_c1_union :
    specCount 4 (union c1A c1B) = 0.673 * 256 := by
  simp only [specCount]
  rw [rawEstimate_c1_union, c1_union_emptyBuckets]
  rw [if_neg (by norm_num), if_pos (by norm_num)]

/-- C1 counterexample: at `c1A`, `c1B` the code's `jaccard_similarity`
returns `16/16 = 1` (a ratio of bucket counts), while the ratio of the
estimated cardinalities of the intersection and union sketches is `1/2`,
so the claimed identity fails. -/
theorem c1_counterexample :
    ((jaccard_similarity c1A c1B : ℚ) : ℝ) ≠
      specCount 4 (intersection c1A c1B) / specCount 4 (union c1A c1B) := by
  have hi : (intersection c1A c1B).length = 16 := by decide
  have hu : (union c1A c1B).length = 16 := by decide
  have hj : jaccard_similarity c1A c1B = 1 := by
    simp only [jaccard_similarity, hi, hu]
    norm_num
  rw [hj, specCount_c1_inter, specCount_c1_union]
  norm_num

end HllSets
